import Mathlib

/-
  Verification development for the table state engine of
  shadcn-data-table-factory.

  The definitions below are a shallow embedding of the TypeScript source:
  JavaScript runtime values are modelled by the inductive type `Value`
  (numbers restricted to integers, multi-choice arrays restricted to string
  arrays, which is what the UI produces), records are association lists from
  field keys to values, and every pure helper of the source
  (`mergeColumnOrder`, `toggleColumn`, `hasValueChanged`, `columnFilterFn`,
  `globalFilterFn`, the selection pruning step, `handleSelectionChange`,
  `RowEditor.handleSave`, `getVisibleColumns`, `exportToExcel`) is translated
  function for function.  Code that can raise is modelled in `Except`.

  Pieces of behaviour that live in external collaborators (the TanStack
  table engine that composes the per-column predicates, sorts and paginates;
  host `Date` parsing and formatting) are modelled from the specification
  document and marked as such in their doc comments.
-/

namespace DataTable

/-- JavaScript runtime values as manipulated by the table.  Numbers are
restricted to integers and multi-choice arrays to string arrays, which is
what the table UI produces (the `MultiSelect` editor works on `string[]`).
A `Date` object is represented by its epoch-milliseconds timestamp. -/
inductive Value where
  | vUndef : Value
  | vNull : Value
  | vStr (s : String) : Value
  | vInt (n : Int) : Value
  | vBool (b : Bool) : Value
  | vArr (xs : List String) : Value
  | vDate (ms : Int) : Value
deriving DecidableEq, Repr

/-- Truthiness of a JavaScript value (`Boolean(v)` is false for
`undefined`, `null`, the empty string, `0`, `false`; arrays and `Date`
objects are always truthy). -/
def jsFalsy : Value → Bool
  | Value.vUndef => true
  | Value.vNull => true
  | Value.vStr s => s == ""
  | Value.vInt n => n == 0
  | Value.vBool b => !b
  | Value.vArr _ => false
  | Value.vDate _ => false

/-- Stringification per JavaScript `String(v)`.  An array stringifies by
joining its elements with a comma.  The host-dependent `Date.toString`
rendering is abstracted by a deterministic placeholder; no claim in this
development inspects the stringification of a `Date`. -/
def stringOfValue : Value → String
  | Value.vUndef => "undefined"
  | Value.vNull => "null"
  | Value.vStr s => s
  | Value.vInt n => toString n
  | Value.vBool b => cond b "true" "false"
  | Value.vArr xs => String.intercalate "," xs
  | Value.vDate ms => "[Date " ++ toString ms ++ "]"

/-- Strict equality (`===`).  Arrays and `Date` objects compare by
reference in JavaScript; the model treats two object values as distinct
references, which is accurate for every comparison the claims exercise
(there strict equality is only ever applied with at least one primitive
operand, or on values that were already destructured). -/
def jsStrictEq (a b : Value) : Bool :=
  match a, b with
  | Value.vArr _, _ => false
  | _, Value.vArr _ => false
  | Value.vDate _, _ => false
  | _, Value.vDate _ => false
  | x, y => x == y

/-- A record (table row): an association list from field keys to values,
mirroring a JavaScript object with its insertion order. -/
abbrev Row : Type := List (String × Value)

/-- Property read `row[key]`: the first binding wins, a missing key reads
as `undefined`. -/
def rowGet (r : Row) (k : String) : Value :=
  (List.lookup k r).getD Value.vUndef

/-- Keys of a record, in insertion order (`Object.keys`). -/
def rowKeys (r : Row) : List String :=
  r.map Prod.fst

/-- Column order merge from data-table-factory.tsx (`mergeColumnOrder`):
stored columns that still exist come first in their stored order, then the
current columns missing from the stored order are appended. -/
def mergeColumnOrder (storedOrder : List String) (currentColumns : List String) :
    List String :=
  let validStoredColumns := storedOrder.filter (fun col => currentColumns.contains col)
  let newColumns := currentColumns.filter (fun col => !(storedOrder.contains col))
  validStoredColumns ++ newColumns

/-- Modelled from the spec: the column order merge as worded in section 4.2,
"keep elements of storedOrder that still exist in currentFieldKeys
(preserving their relative order), then append any currentFieldKeys not
present in storedOrder, in their natural (shape-declaration) order". -/
def mergeOrderSpec (storedOrder : List String) (currentFieldKeys : List String) :
    List String :=
  (storedOrder.filter fun k => currentFieldKeys.contains k) ++
    (currentFieldKeys.filter fun k => !(storedOrder.contains k))

/-- Column field types from types.ts (`DataTableFieldType`). -/
inductive FieldType where
  | text | number | boolean | select | multiSelect | date | image | link | custom
deriving DecidableEq, Repr

/-- Caller-supplied hooks of a `custom` column.  `getExportValue` may throw
in JavaScript, which the model expresses with `Except`. -/
structure CustomHooks where
  compareValue : Option (Value → Value → Bool) := none
  getSearchValue : Option (Value → String) := none
  getExportValue : Option (Value → Except String Value) := none

/-- Per-column configuration from types.ts.  The tri-state boolean flags
(`undefined` / `true` / `false`) are modelled with `Option Bool`; the source
only ever tests them with `=== false`. -/
structure FieldConfig where
  type : FieldType
  label : String
  filterable : Option Bool := none
  searchable : Option Bool := none
  sortable : Option Bool := none
  editable : Option Bool := none
  options : List String := []
  custom : CustomHooks := {}

/-- A shape: the caller's field-key to column-config object.  Entries with a
falsy config in the TypeScript object are simply absent here. -/
abbrev Shape : Type := List (String × FieldConfig)

/-- Shape lookup `shape[key]`. -/
def shapeGet (shape : Shape) (k : String) : Option FieldConfig :=
  List.lookup k shape

/-- Shape keys in declaration order (`getCurrentColumnOrder` in
data-table-factory.tsx returns the keys whose config is truthy, which in
this model is every key). -/
def getCurrentColumnOrder (shape : Shape) : List String :=
  shape.map Prod.fst

/-- Helper for substring search: does `pat` occur at the head of `hay`? -/
def charsMatchHere : List Char → List Char → Bool
  | [], _ => true
  | _ :: _, [] => false
  | c :: cs, d :: ds => c == d && charsMatchHere cs ds

/-- Helper for substring search: does `pat` occur anywhere in `hay`? -/
def charsInclude (hay pat : List Char) : Bool :=
  match hay with
  | [] => pat.isEmpty
  | _ :: t => charsMatchHere pat hay || charsInclude t pat

/-- JavaScript `hay.includes(pat)` on strings. -/
def strIncludes (hay pat : String) : Bool :=
  charsInclude hay.toList pat.toList

/-- Lowercasing per JavaScript `toLowerCase`, character by character
(written over the character list so that it is kernel-computable). -/
def jsToLower (s : String) : String :=
  String.mk (s.data.map Char.toLower)

/-- The per-column filter predicate `columnFilterFn` from
data-table-factory.tsx, translated branch for branch.  `tableFilterable`
is the global `filterable` prop. -/
def columnFilterFn (tableFilterable : Bool) (shape : Shape)
    (row : Row) (id : String) (value : Value) : Bool :=
  match shapeGet shape id with
  | none => true
  | some config =>
    if !tableFilterable then true
    else if config.filterable == some false then true
    else
      let cellValue := rowGet row id
      if jsFalsy value || value == Value.vStr "all" then true
      else
        match config.type with
        | FieldType.boolean => value == Value.vStr (stringOfValue cellValue)
        | FieldType.select => jsStrictEq cellValue value
        | FieldType.multiSelect =>
          match value with
          | Value.vArr vs =>
            if vs.length > 0 then
              let cellArray := match cellValue with
                | Value.vArr xs => xs
                | _ => []
              vs.any (fun filterVal => cellArray.contains filterVal)
            else true
          | _ => true
        | FieldType.custom =>
          match config.custom.compareValue with
          | some f => f cellValue value
          | none =>
            strIncludes (jsToLower (stringOfValue cellValue))
              (jsToLower (stringOfValue value))
        | _ =>
          strIncludes (jsToLower (stringOfValue cellValue))
            (jsToLower (stringOfValue value))

/-- The per-column global-search predicate `globalFilterFn` from
data-table-factory.tsx.  `tableSearchable` is the global `searchable`
prop. -/
def globalFilterFn (tableSearchable : Bool) (shape : Shape)
    (row : Row) (columnId : String) (filterValue : String) : Bool :=
  if !tableSearchable then true
  else
    let config := shapeGet shape columnId
    if (config.map (fun c => c.searchable)).getD none == some false then true
    else
      let value := rowGet row columnId
      match config with
      | some c =>
        if c.type == FieldType.custom then
          match c.custom.getSearchValue with
          | some g => strIncludes (jsToLower (g value)) (jsToLower filterValue)
          | none =>
            strIncludes (jsToLower (stringOfValue value)) (jsToLower filterValue)
        else strIncludes (jsToLower (stringOfValue value)) (jsToLower filterValue)
      | none => strIncludes (jsToLower (stringOfValue value)) (jsToLower filterValue)

/-- Modelled from the spec: the composition of the per-column predicates
into one predicate (section 4.3).  The external table engine keeps a record
when every active column filter accepts it, and, when the (debounced) global
query is non-empty, when at least one data column's global predicate accepts
it.  `searchCols` are the data columns the engine evaluates the global
predicate on. -/
def filterPasses (tableFilterable tableSearchable : Bool) (shape : Shape)
    (searchCols : List String) (filters : List (String × Value))
    (globalQuery : String) (row : Row) : Bool :=
  filters.all (fun kv => columnFilterFn tableFilterable shape row kv.1 kv.2) &&
    (globalQuery == "" ||
      searchCols.any (fun c => globalFilterFn tableSearchable shape row c globalQuery))

/-- Modelled from the spec: the filtered view of the record set
(section 4.3); the external table engine applies `filterPasses` to each
record, preserving order. -/
def filteredRows (tableFilterable tableSearchable : Bool) (shape : Shape)
    (searchCols : List String) (filters : List (String × Value))
    (globalQuery : String) (data : List Row) : List Row :=
  data.filter
    (filterPasses tableFilterable tableSearchable shape searchCols filters globalQuery)

/-- Modelled from the spec: the per-key value comparison of the sort engine
(section 4.4): lexicographic for strings, numeric for numbers, chronological
for dates, `false < true` for booleans, and stringified comparison as the
fallback for mixed or unclassified operands. -/
def compareValues (a b : Value) : Ordering :=
  match a, b with
  | Value.vStr x, Value.vStr y => compare x y
  | Value.vInt x, Value.vInt y => compare x y
  | Value.vBool x, Value.vBool y =>
    cond x (cond y Ordering.eq Ordering.gt) (cond y Ordering.lt Ordering.eq)
  | Value.vDate x, Value.vDate y => compare x y
  | x, y => compare (stringOfValue x) (stringOfValue y)

/-- Modelled from the spec: the multi-key comparator (section 4.4).  Sort
state is a priority-ordered list of (field key, descending flag); the first
non-tie decides, negated when descending. -/
def cmpBySorting (sorting : List (String × Bool)) (a b : Row) : Ordering :=
  match sorting with
  | [] => Ordering.eq
  | (k, desc) :: rest =>
    let c := compareValues (rowGet a k) (rowGet b k)
    let c := if desc then c.swap else c
    match c with
    | Ordering.eq => cmpBySorting rest a b
    | o => o

/-- Stable insertion of a row in front of the first strictly greater row. -/
def insertRow (cmp : Row → Row → Ordering) (a : Row) : List Row → List Row
  | [] => [a]
  | b :: bs =>
    if cmp a b == Ordering.gt then b :: insertRow cmp a bs else a :: b :: bs

/-- Modelled from the spec: the stable sort of the view pipeline
(section 4.4, "if all keys tie, original relative order is preserved"),
realised as a stable insertion sort. -/
def sortRows (cmp : Row → Row → Ordering) : List Row → List Row
  | [] => []
  | x :: xs => insertRow cmp x (sortRows cmp xs)

/-- Modelled from the spec: the pagination slice (section 4.5); the external
table engine returns `rows.slice(pageIndex * pageSize, (pageIndex + 1) *
pageSize)`. -/
def paginateRows (pageIndex pageSize : Nat) (rows : List Row) : List Row :=
  (rows.drop (pageIndex * pageSize)).take pageSize

/-- The final row model the component renders and feeds to the pruning
step: the paginated slice when pagination is enabled (the factory installs
the pagination row model exactly then), the full sorted set otherwise. -/
def rowModelRows (paginationEnabled : Bool) (pageIndex pageSize : Nat)
    (sorted : List Row) : List Row :=
  if paginationEnabled then paginateRows pageIndex pageSize sorted else sorted

/-- Row identity: `getRowId: (row) => row[rowId]`, coerced to a string key
as JavaScript property access does. -/
def idStr (rowId : String) (r : Row) : String :=
  stringOfValue (rowGet r rowId)

/-- Identity list of a row list. -/
def rowIds (rowId : String) (rows : List Row) : List String :=
  rows.map (idStr rowId)

/-- A selection state: a JavaScript object from row-id keys to booleans,
kept in insertion order. -/
abbrev Selection : Type := List (String × Bool)

/-- Keys present in a selection object (`key in selection` ignores the
stored boolean). -/
def selectionKeys (s : Selection) : List String :=
  s.map Prod.fst

/-- Truthy membership test `Boolean(selection[key])`. -/
def selValueTruthy (s : Selection) (k : String) : Bool :=
  (List.lookup k s).getD false

/-- The selection pruning step from data-table-factory.tsx (the state
updater inside the `visibleRowIds` memo): walk the previous selection
object, keep (as `true`) every key that is in the current visible-row id
set, and if any key was dropped return the rebuilt object, otherwise the
previous object unchanged. -/
def pruneSelection (prev : Selection) (visible : List String) : Selection :=
  let next : Selection :=
    (prev.filter (fun kv => visible.contains kv.1)).map (fun kv => (kv.1, true))
  let changed := prev.any (fun kv => !(visible.contains kv.1))
  if changed then next else prev

/-- The record resolution of `handleSelectionChange` in
data-table-factory.tsx: `data.filter((row) => row[rowId] in newSelection)`
— the raw unfiltered record array filtered by key membership in the
selection object. -/
def selectionChangeRecords (data : List Row) (rowId : String) (sel : Selection) :
    List Row :=
  data.filter (fun r => (selectionKeys sel).contains (idStr rowId r))

/-- Modelled from the spec: the record resolution as worded in section 4.6,
"looking them up against the live filtered/sorted row set"; used as the
comparison point for the refinement claim about `handleSelectionChange`. -/
def specSelectionRecords (sortedRows : List Row) (rowId : String) (sel : Selection) :
    List Row :=
  sortedRows.filter (fun r => (selectionKeys sel).contains (idStr rowId r))

/-- Change detection `hasValueChanged` from utils.tsx, translated branch
for branch.  `parse` models the host's `new Date(string).getTime()` on
strings: `none` stands for `NaN` (an unparseable date), `some t` for a
finite timestamp.  Every theorem below holds for an arbitrary `parse`, in
particular for the actual host parser. -/
def hasValueChanged (parse : String → Option Int) (oldValue newValue : Value) :
    Bool :=
  if oldValue == Value.vUndef || oldValue == Value.vNull then
    !(newValue == Value.vNull || newValue == Value.vUndef ||
      newValue == Value.vStr "")
  else if newValue == Value.vNull || newValue == Value.vUndef ||
      newValue == Value.vStr "" then
    !(oldValue == Value.vNull || oldValue == Value.vUndef ||
      oldValue == Value.vStr "")
  else
    match oldValue, newValue with
    | Value.vArr a, Value.vArr b =>
      if a.length != b.length then true
      else (List.range a.length).any (fun i => !(a.getD i "" == b.getD i ""))
    | Value.vDate t1, Value.vDate t2 => t1 != t2
    | Value.vStr s1, Value.vStr s2 =>
      match parse s1, parse s2 with
      | some t1, some t2 => t1 != t2
      | _, _ => !(jsStrictEq (Value.vStr s1) (Value.vStr s2))
    | a, b => !(jsStrictEq a b)

/-- Commit of the row edit transaction, `RowEditor.handleSave` from
row.tsx: scan the draft's keys for an actual change per `hasValueChanged`
and invoke the save callback (`some draft`) only when one exists;
otherwise no callback fires (`none`). -/
def handleSave (parse : String → Option Int) (row draft : Row) : Option Row :=
  if (rowKeys draft).any
      (fun k => hasValueChanged parse (rowGet row k) (rowGet draft k)) then
    some draft
  else none

/-- A column visibility state: a JavaScript object from field keys to
booleans; an absent key means visible. -/
abbrev Visibility : Type := List (String × Bool)

/-- Visibility read `columnVisibility[key] !== false`. -/
def isVisible (vis : Visibility) (key : String) : Bool :=
  !(List.lookup key vis == some false)

/-- Object spread update: every binding of `key` is overwritten (JavaScript
objects hold one binding per key), a fresh key is appended. -/
def setVis (vis : Visibility) (key : String) (b : Bool) : Visibility :=
  if (vis.map Prod.fst).contains key then
    vis.map (fun kv => if kv.1 == key then (key, b) else kv)
  else vis ++ [(key, b)]

/-- Number of visible columns among the available columns. -/
def visibleCount (columns : List String) (vis : Visibility) : Nat :=
  (columns.filter (fun c => isVisible vis c)).length

/-- Visibility toggle `toggleColumn` from column-controls.tsx: hiding is
rejected when at most one of the available columns is visible; otherwise
the column's visibility flips. -/
def toggleColumn (columns : List String) (vis : Visibility) (key : String) :
    Visibility :=
  let isCurrentlyVisible := isVisible vis key
  if isCurrentlyVisible && visibleCount columns vis ≤ 1 then vis
  else setVis vis key (!isCurrentlyVisible)

/-- Visible-column extraction `getVisibleColumns` from export.tsx: column
order restricted to keys with a config that are not explicitly hidden. -/
def getVisibleColumns (shape : Shape) (columnOrder : List String)
    (columnVisibility : Visibility) : List String :=
  columnOrder.filter
    (fun key => (shapeGet shape key).isSome && isVisible columnVisibility key)

/-- String coercion `String(value || "")` used by the export formatter. -/
def stringOrEmpty (v : Value) : String :=
  if jsFalsy v then "" else stringOfValue v

/-- Modelled from the spec: `formatDateTimeString` of utils.tsx renders a
timezone-aware datetime via the host `Intl` API inside its own try/catch,
so it is total; the exact host rendering is abstracted by a deterministic
placeholder (no claim inspects the rendered text). -/
def formatDateTimeString (v : Value) (timezone : Option String) : String :=
  if jsFalsy v then ""
  else stringOfValue v ++ "@" ++ timezone.getD "local"

/-- Per-cell export formatting `formatValueForExport` from export.tsx,
translated branch for branch.  The caller-supplied `getExportValue` hook of
a custom column may throw, hence the `Except` result. -/
def formatValueForExport (shape : Shape) (timezone : Option String)
    (columnKey : String) (value : Value) : Except String Value :=
  match shapeGet shape columnKey with
  | none => Except.ok value
  | some config =>
    if value == Value.vNull || value == Value.vUndef then
      Except.ok (Value.vStr "")
    else
      match config.type with
      | FieldType.boolean =>
        Except.ok (Value.vStr (if jsFalsy value then "No" else "Yes"))
      | FieldType.date =>
        if jsFalsy value then Except.ok (Value.vStr "")
        else Except.ok (Value.vStr (formatDateTimeString value timezone))
      | FieldType.multiSelect =>
        match value with
        | Value.vArr xs => Except.ok (Value.vStr (String.intercalate ", " xs))
        | _ => Except.ok (Value.vStr "")
      | FieldType.number =>
        match value with
        | Value.vInt n => Except.ok (Value.vInt n)
        | _ => Except.ok (Value.vStr "")
      | FieldType.image => Except.ok (Value.vStr (stringOrEmpty value))
      | FieldType.link => Except.ok (Value.vStr (stringOrEmpty value))
      | FieldType.custom =>
        match config.custom.getExportValue with
        | some f => f value
        | none => Except.ok (Value.vStr (stringOrEmpty value))
      | _ => Except.ok (Value.vStr (stringOrEmpty value))

/-- Outcome of an export call at its public boundary: one of the two
reported empty-input failures, a saved workbook (sheet name, header row and
data grid), or the reported catch-all failure. -/
inductive ExportOutcome where
  | alertNoData : ExportOutcome
  | alertNoColumns : ExportOutcome
  | saved (sheetName : String) (headers : List String)
      (grid : List (List Value)) : ExportOutcome
  | alertFailed : ExportOutcome
deriving DecidableEq, Repr

/-- Row-source choice of `exportToExcel`: the selected rows when some were
passed and there is at least one, the full (filtered and sorted) data
otherwise. -/
def dataToExport (data : List Row) (selectedRows : Option (List Row)) :
    List Row :=
  match selectedRows with
  | some sel => if sel.length > 0 then sel else data
  | none => data

/-- Export column choice of `exportToExcel`: column order restricted to
keys that have a config and are in the visible-column list. -/
def exportColumnsOf (shape : Shape) (visibleColumns columnOrder : List String) :
    List String :=
  columnOrder.filter
    (fun key => (shapeGet shape key).isSome && visibleColumns.contains key)

/-- Body of `exportToExcel` from export.tsx as run inside its try block.
`writer` stands for the external spreadsheet writer (`XLSX.write` plus
`saveAs`), which may throw.  Errors of the formatter hooks and of the
writer propagate as `Except.error`, exactly like exceptions inside the
try block. -/
def exportAttempt (shape : Shape) (visibleColumns columnOrder : List String)
    (tableName : String) (data : List Row) (selectedRows : Option (List Row))
    (timezone : Option String) (writer : Except String Unit) :
    Except String ExportOutcome :=
  let rowsSource := dataToExport data selectedRows
  if rowsSource.length == 0 then Except.ok ExportOutcome.alertNoData
  else
    let exportColumns := exportColumnsOf shape visibleColumns columnOrder
    if exportColumns.length == 0 then Except.ok ExportOutcome.alertNoColumns
    else do
      let headers := exportColumns.map (fun key =>
        match shapeGet shape key with
        | some c => if c.label == "" then key else c.label
        | none => key)
      let rows ← rowsSource.mapM (fun row =>
        exportColumns.mapM (fun key =>
          formatValueForExport shape timezone key (rowGet row key)))
      let sheetName :=
        match selectedRows with
        | some sel =>
          if sel.length > 0 then tableName ++ " (Selected)" else tableName
        | none => tableName
      let _ ← writer
      Except.ok (ExportOutcome.saved sheetName headers
        ((headers.map Value.vStr) :: rows))

/-- Public boundary of `exportToExcel`: the try/catch wrapper around
`exportAttempt`; any thrown error is caught and reported as the alert
failure. -/
def exportToExcel (shape : Shape) (visibleColumns columnOrder : List String)
    (tableName : String) (data : List Row) (selectedRows : Option (List Row))
    (timezone : Option String) (writer : Except String Unit) : ExportOutcome :=
  match exportAttempt shape visibleColumns columnOrder tableName data
      selectedRows timezone writer with
  | Except.ok o => o
  | Except.error _ => ExportOutcome.alertFailed

/-- Selected-rows argument computed by `handleExport` in
data-table-factory.tsx: when some selection entry is truthy, the selected
row model (the core rows, in data order, whose id has a truthy selection
entry — TanStack's `getSelectedRowModel` is based on the core row model),
otherwise `undefined`. -/
def selectedRowsArg (data : List Row) (rowId : String) (sel : Selection) :
    Option (List Row) :=
  if sel.any (fun kv => kv.2) then
    some (data.filter (fun r => selValueTruthy sel (idStr rowId r)))
  else none

/-- The export trigger `handleExport` from data-table-factory.tsx: it
passes the filtered-then-sorted rows as the data, the visible columns per
`getVisibleColumns`, and the selected rows when any selection entry is
truthy. -/
def handleExport (tableFilterable tableSearchable : Bool) (shape : Shape)
    (columnOrder : List String) (columnVisibility : Visibility)
    (tableName : String) (data : List Row) (rowId : String) (sel : Selection)
    (searchCols : List String) (filters : List (String × Value))
    (globalQuery : String) (sorting : List (String × Bool))
    (timezone : Option String) (writer : Except String Unit) : ExportOutcome :=
  let visibleColumns := getVisibleColumns shape columnOrder columnVisibility
  let processedData := sortRows (cmpBySorting sorting)
    (filteredRows tableFilterable tableSearchable shape searchCols filters
      globalQuery data)
  exportToExcel shape visibleColumns columnOrder tableName processedData
    (selectedRowsArg data rowId sel) timezone writer

/-- The multi-select cell coercion of `columnFilterFn`
(`Array.isArray(cellValue) ? cellValue : []`): a non-array cell value is
treated as the empty value-set. -/
def cellArrayOf : Value → List String
  | Value.vArr xs => xs
  | _ => []

/-
  Theorems.  Shared helper lemmas come first; each claim is settled by the
  single theorem carrying its doc comment, plus a closed witness (and, for
  refuted claims, a closed counterexample).
-/

/-- Membership in the merged column order is exactly membership in the
current columns. -/
theorem mem_mergeColumnOrder (o k : List String) (x : String) :
    x ∈ mergeColumnOrder o k ↔ x ∈ k := by
  unfold mergeColumnOrder
  simp only [List.mem_append, List.mem_filter, List.elem_eq_mem,
    decide_eq_true_eq, Bool.not_eq_true', decide_eq_false_iff_not]
  constructor
  · rintro (⟨_, hk⟩ | ⟨hk, _⟩) <;> exact hk
  · intro hk
    by_cases ho : x ∈ o
    · exact Or.inl ⟨ho, hk⟩
    · exact Or.inr ⟨hk, ho⟩

/-- C5: `mergeColumnOrder` returns exactly the stored keys that still exist
(in their stored relative order, a sublist of the stored order) followed by
the current keys not present in the stored order (in declaration order, a
sublist of the current keys); it agrees with the spec's wording
(`mergeOrderSpec`), and a key appears in the result exactly when it is a
current key — in particular keys absent from the current shape never
appear. -/
theorem c5_mergeColumnOrder_exact (o k : List String) :
    mergeColumnOrder o k =
      (o.filter fun x => k.contains x) ++ (k.filter fun x => !(o.contains x)) ∧
    mergeColumnOrder o k = mergeOrderSpec o k ∧
    (∀ x, x ∈ mergeColumnOrder o k ↔ x ∈ k) ∧
    (o.filter fun x => k.contains x).Sublist o ∧
    (k.filter fun x => !(o.contains x)).Sublist k :=
  ⟨rfl, rfl, mem_mergeColumnOrder o k, List.filter_sublist o, List.filter_sublist k⟩

/-- C5 witness: a concrete shape migration — stored order with a deleted
key, current keys with a fresh one. -/
theorem c5_mergeColumnOrder_exact_witness :
    mergeColumnOrder ["b", "gone", "a"] ["a", "b", "c"] = ["b", "a", "c"] ∧
    (∀ x, x ∈ mergeColumnOrder ["b", "gone", "a"] ["a", "b", "c"] ↔
      x ∈ ["a", "b", "c"]) := by
  refine ⟨by decide, ?_⟩
  exact (c5_mergeColumnOrder_exact ["b", "gone", "a"] ["a", "b", "c"]).2.2.1

/-- C6: `mergeColumnOrder` is idempotent in its first argument. -/
theorem c6_mergeColumnOrder_idem (o k : List String) :
    mergeColumnOrder (mergeColumnOrder o k) k = mergeColumnOrder o k := by
  have h1 : (mergeColumnOrder o k).filter (fun col => k.contains col) =
      mergeColumnOrder o k := by
    refine List.filter_eq_self.mpr (fun a ha => ?_)
    have : a ∈ k := (mem_mergeColumnOrder o k a).mp ha
    simpa using this
  have h2 : k.filter (fun col => !((mergeColumnOrder o k).contains col)) = [] := by
    refine List.filter_eq_nil_iff.mpr (fun a ha => ?_)
    have : a ∈ mergeColumnOrder o k := (mem_mergeColumnOrder o k a).mpr ha
    simpa using this
  calc mergeColumnOrder (mergeColumnOrder o k) k
      = (mergeColumnOrder o k).filter (fun col => k.contains col) ++
        k.filter (fun col => !((mergeColumnOrder o k).contains col)) := rfl
    _ = mergeColumnOrder o k := by rw [h1, h2, List.append_nil]

/-- C6 witness: idempotence at a concrete (storedOrder, currentKeys)
pair. -/
theorem c6_mergeColumnOrder_idem_witness :
    mergeColumnOrder (mergeColumnOrder ["b", "gone", "a"] ["a", "b", "c"])
      ["a", "b", "c"] =
    mergeColumnOrder ["b", "gone", "a"] ["a", "b", "c"] :=
  c6_mergeColumnOrder_idem ["b", "gone", "a"] ["a", "b", "c"]

/-- Overwriting one key of a visibility object leaves lookups of other keys
unchanged. -/
theorem lookup_overwrite_ne (vis : Visibility) (key k2 : String) (b : Bool)
    (hne : ¬(k2 = key)) :
    List.lookup k2 (vis.map (fun kv => if kv.1 == key then (key, b) else kv)) =
      List.lookup k2 vis := by
  induction vis with
  | nil => rfl
  | cons hd tl ih =>
    obtain ⟨hk, hv⟩ := hd
    have h1 : (k2 == key) = false := beq_eq_false_iff_ne.mpr hne
    by_cases hkk : hk = key
    · subst hkk
      simpa [List.lookup_cons, h1] using ih
    · have h2 : (hk == key) = false := beq_eq_false_iff_ne.mpr hkk
      cases hk2 : (k2 == hk)
      · simpa [List.lookup_cons, hkk, hk2] using ih
      · simp [List.lookup_cons, hkk, hk2]

/-- Overwriting a present key of a visibility object makes its lookup the
new value. -/
theorem lookup_overwrite_self (vis : Visibility) (key : String) (b : Bool)
    (hmem : key ∈ vis.map Prod.fst) :
    List.lookup key (vis.map (fun kv => if kv.1 == key then (key, b) else kv)) =
      some b := by
  induction vis with
  | nil => simp at hmem
  | cons hd tl ih =>
    obtain ⟨hk, hv⟩ := hd
    by_cases hkk : hk = key
    · subst hkk
      simp [List.lookup_cons]
    · have h2 : (hk == key) = false := beq_eq_false_iff_ne.mpr hkk
      have h3 : (key == hk) = false :=
        beq_eq_false_iff_ne.mpr (fun e => hkk e.symm)
      have hmem2 : key ∈ tl.map Prod.fst := by
        rw [List.map_cons] at hmem
        rcases List.mem_cons.mp hmem with h4 | h4
        · exact absurd h4.symm hkk
        · exact h4
      simpa [List.lookup_cons, hkk, h3] using ih hmem2

/-- Visibility after an object-spread update: the written key reads the
written value, every other key is unchanged. -/
theorem isVisible_setVis (vis : Visibility) (key k2 : String) (b : Bool) :
    isVisible (setVis vis key b) k2 =
      if k2 = key then b else isVisible vis k2 := by
  unfold setVis isVisible
  by_cases hmem : key ∈ vis.map Prod.fst
  · have hc : (vis.map Prod.fst).contains key = true := by simpa using hmem
    simp only [hc, if_true]
    by_cases hk : k2 = key
    · subst hk
      rw [lookup_overwrite_self vis k2 b hmem]
      cases b <;> simp
    · rw [lookup_overwrite_ne vis key k2 b hk]
      simp [hk]
  · have hc : (vis.map Prod.fst).contains key = false := by simpa using hmem
    simp only [hc, Bool.false_eq_true, if_false]
    by_cases hk : k2 = key
    · subst hk
      have hnone : List.lookup k2 vis = none := by
        rw [List.lookup_eq_none_iff]
        intro p hp
        have hmm : p.1 ∈ vis.map Prod.fst := List.mem_map_of_mem Prod.fst hp
        have hne : ¬(k2 = p.1) := fun e => hmem (by rw [e]; exact hmm)
        simpa [bne_iff_ne] using hne
      rw [List.lookup_append, hnone]
      cases b <;> simp
    · have hkb : (k2 == key) = false := beq_eq_false_iff_ne.mpr hk
      have hone : List.lookup k2 [(key, b)] = none := by
        simp [List.lookup_cons, hkb]
      rw [List.lookup_append, hone, Option.or_none]
      simp [hk]

/-- The visible-column count is positive exactly when some available column
is visible. -/
theorem one_le_visibleCount_iff (columns : List String) (vis : Visibility) :
    1 ≤ visibleCount columns vis ↔ ∃ c ∈ columns, isVisible vis c = true := by
  unfold visibleCount
  rw [← List.countP_eq_length_filter]
  exact List.countP_pos_iff

/-- A duplicate-free list of length at least two contains an element
different from any given key. -/
theorem exists_mem_ne_of_two_le {l : List String} (hnd : l.Nodup)
    (h2 : 2 ≤ l.length) (key : String) : ∃ c, c ∈ l ∧ ¬(c = key) := by
  cases l with
  | nil => simp at h2
  | cons a t =>
    cases t with
    | nil => simp at h2
    | cons b t2 =>
      have hab : ¬(a = b) := by
        have := List.nodup_cons.mp hnd
        exact fun h => this.1 (h ▸ List.mem_cons_self b t2)
      by_cases hak : a = key
      · exact ⟨b, List.mem_cons_of_mem a (List.mem_cons_self b t2),
          fun hbk => hab (hak.trans hbk.symm)⟩
      · exact ⟨a, List.mem_cons_self a (b :: t2), hak⟩

/-- Case analysis of a visibility toggle: either the guard rejects the hide
or the key's visibility is overwritten with its negation. -/
theorem toggleColumn_cases (columns : List String) (vis : Visibility) (key : String) :
    toggleColumn columns vis key =
      if isVisible vis key = true ∧ visibleCount columns vis ≤ 1 then vis
      else setVis vis key (!(isVisible vis key)) := by
  unfold toggleColumn
  by_cases h1 : isVisible vis key = true <;>
    by_cases h2 : visibleCount columns vis ≤ 1 <;>
      simp [h1, h2]

/-- One toggle step never empties the visible-column set. -/
theorem toggleColumn_keeps_one (columns : List String) (hnd : columns.Nodup)
    (vis : Visibility) (key : String) (h1 : 1 ≤ visibleCount columns vis) :
    1 ≤ visibleCount columns (toggleColumn columns vis key) := by
  rw [toggleColumn_cases]
  split
  · exact h1
  · rename_i hguard
    rw [one_le_visibleCount_iff]
    by_cases hcur : isVisible vis key = true
    · -- hiding: the guard failed, so at least two columns are visible
      have hcount : ¬ visibleCount columns vis ≤ 1 := fun hle => hguard ⟨hcur, hle⟩
      have h2 : 2 ≤ visibleCount columns vis := by omega
      have hnd2 : (columns.filter (fun c => isVisible vis c)).Nodup :=
        hnd.filter _
      obtain ⟨c, hcmem, hcne⟩ :=
        exists_mem_ne_of_two_le hnd2 (by simpa [visibleCount] using h2) key
      have hcmem2 := List.mem_filter.mp hcmem
      refine ⟨c, hcmem2.1, ?_⟩
      rw [isVisible_setVis, if_neg hcne]
      exact hcmem2.2
    · -- showing: every previously visible column stays visible
      obtain ⟨c, hcmem, hcvis⟩ := (one_le_visibleCount_iff columns vis).mp h1
      have hcne : ¬(c = key) := fun h => hcur (h ▸ hcvis)
      refine ⟨c, hcmem, ?_⟩
      rw [isVisible_setVis, if_neg hcne]
      exact hcvis

/-- C4: over every sequence of `toggleColumn` calls the number of visible
columns never reaches 0; a toggle that would hide the last visible column
is a no-op on the visibility state; and every other toggle flips exactly
the toggled column's visibility, leaving all other keys unchanged.
`columns` are the available column keys (duplicate-free, as the keys of the
shape object are). -/
theorem c4_toggleColumn_invariant (columns : List String) (hnd : columns.Nodup)
    (vis : Visibility) :
    (∀ keys : List String, 1 ≤ visibleCount columns vis →
      1 ≤ visibleCount columns (keys.foldl (toggleColumn columns) vis)) ∧
    (∀ key, isVisible vis key = true → visibleCount columns vis ≤ 1 →
      toggleColumn columns vis key = vis) ∧
    (∀ key, ¬(isVisible vis key = true ∧ visibleCount columns vis ≤ 1) →
      isVisible (toggleColumn columns vis key) key = !(isVisible vis key) ∧
      ∀ k2, ¬(k2 = key) →
        isVisible (toggleColumn columns vis key) k2 = isVisible vis k2) := by
  refine ⟨?_, ?_, ?_⟩
  · intro keys
    induction keys generalizing vis with
    | nil => exact fun h => h
    | cons hd tl ih =>
      intro h1
      exact ih (toggleColumn columns vis hd)
        (toggleColumn_keeps_one columns hnd vis hd h1)
  · intro key hvis hle
    rw [toggleColumn_cases, if_pos ⟨hvis, hle⟩]
  · intro key hguard
    have hsplit : toggleColumn columns vis key =
        setVis vis key (!(isVisible vis key)) := by
      rw [toggleColumn_cases, if_neg hguard]
    constructor
    · rw [hsplit, isVisible_setVis, if_pos rfl]
    · intro k2 hne
      rw [hsplit, isVisible_setVis, if_neg hne]

/-- C4 witness: with two concrete columns, hiding one works, hiding the
last one is rejected, and a full toggle sequence keeps a visible column. -/
theorem c4_toggleColumn_invariant_witness :
    (1 ≤ visibleCount ["a", "b"]
      (["a", "b", "b", "a"].foldl (toggleColumn ["a", "b"]) [])) ∧
    toggleColumn ["a", "b"] [("a", false)] "b" = [("a", false)] ∧
    isVisible (toggleColumn ["a", "b"] [] "a") "a" = false := by
  have h := c4_toggleColumn_invariant ["a", "b"] (by decide) []
  have h2 := c4_toggleColumn_invariant ["a", "b"] (by decide) [("a", false)]
  refine ⟨h.1 ["a", "b", "b", "a"] (by decide), h2.2.1 "b" (by decide) (by decide), ?_⟩
  have := (h.2.2 "a" (by decide)).1
  simpa using this

/-- Unfolding of change detection on two arrays: the pre-checks for
null, undefined and the empty string all pass an array through to the
array branch. -/
theorem hasValueChanged_arrays_eq (parse : String → Option Int) (a b : List String) :
    hasValueChanged parse (Value.vArr a) (Value.vArr b) =
      (if a.length != b.length then true
       else (List.range a.length).any (fun i => !(a.getD i "" == b.getD i ""))) :=
  rfl

/-- Two distinct lists of equal length differ at some position. -/
theorem exists_pos_ne_of_ne {a b : List String} (hlen : a.length = b.length)
    (hne : ¬(a = b)) : ∃ i, i < a.length ∧ ¬(a.getD i "" = b.getD i "") := by
  induction a generalizing b with
  | nil =>
    cases b with
    | nil => exact absurd rfl hne
    | cons y ys => simp at hlen
  | cons x xs ih =>
    cases b with
    | nil => simp at hlen
    | cons y ys =>
      by_cases hxy : x = y
      · subst hxy
        have hne2 : ¬(xs = ys) := fun h => hne (by rw [h])
        obtain ⟨i, hi, hd⟩ := ih (by simpa using hlen) hne2
        refine ⟨i + 1, by simpa using hi, ?_⟩
        simpa [List.getD_cons_succ] using hd
      · exact ⟨0, by simp, by simpa [List.getD_cons_zero] using hxy⟩

/-- C9: for two (multi-choice) arrays, `hasValueChanged` reports a change
exactly when the lengths differ or some position differs; in particular it
is order-sensitive — two arrays holding the same elements in a different
order always count as changed.  Stated for arbitrary date parsers `parse`
(the date-parsing fallback is unreachable in the array branch). -/
theorem c9_hasValueChanged_arrays (parse : String → Option Int) (a b : List String) :
    (hasValueChanged parse (Value.vArr a) (Value.vArr b) = true ↔
      (¬(a.length = b.length) ∨
        ∃ i, i < a.length ∧ ¬(a.getD i "" = b.getD i ""))) ∧
    (a.Perm b → ¬(a = b) →
      hasValueChanged parse (Value.vArr a) (Value.vArr b) = true) := by
  have heq := hasValueChanged_arrays_eq parse a b
  have hiff : hasValueChanged parse (Value.vArr a) (Value.vArr b) = true ↔
      (¬(a.length = b.length) ∨
        ∃ i, i < a.length ∧ ¬(a.getD i "" = b.getD i "")) := by
    rw [heq]
    by_cases hlen : a.length = b.length
    · have hbne : (a.length != b.length) = false := by simp [hlen]
      rw [hbne]
      simp only [Bool.false_eq_true, if_false, List.any_eq_true, List.mem_range,
        Bool.not_eq_eq_eq_not, Bool.not_true, beq_eq_false_iff_ne, ne_eq]
      constructor
      · rintro ⟨i, hi, hd⟩
        exact Or.inr ⟨i, hi, hd⟩
      · rintro (h | ⟨i, hi, hd⟩)
        · exact absurd hlen h
        · exact ⟨i, hi, hd⟩
    · have hbne : (a.length != b.length) = true := by simpa using hlen
      rw [hbne]
      simp [hlen]
  refine ⟨hiff, fun hperm hne => ?_⟩
  exact hiff.mpr (Or.inr (exists_pos_ne_of_ne hperm.length_eq hne))

/-- C9 witness: reordering a two-element skill set is reported as a
change. -/
theorem c9_hasValueChanged_arrays_witness :
    hasValueChanged (fun _ => none) (Value.vArr ["React", "Vue"])
      (Value.vArr ["Vue", "React"]) = true :=
  (c9_hasValueChanged_arrays (fun _ => none) ["React", "Vue"] ["Vue", "React"]).2
    (List.Perm.swap "Vue" "React" []) (by decide)

/-- C3: committing an edit draft that is field-for-field unchanged (per
`hasValueChanged`) fires no save callback, and the callback fires only
when at least one draft field actually changed — in which case the saved
record is the draft itself. -/
theorem c3_handleSave_noop (parse : String → Option Int) (row draft : Row) :
    ((∀ k ∈ rowKeys draft,
        hasValueChanged parse (rowGet row k) (rowGet draft k) = false) →
      handleSave parse row draft = none) ∧
    (∀ d, handleSave parse row draft = some d →
      d = draft ∧ ∃ k ∈ rowKeys draft,
        hasValueChanged parse (rowGet row k) (rowGet draft k) = true) := by
  constructor
  · intro hall
    unfold handleSave
    split
    · rename_i h
      obtain ⟨k, hk, hc⟩ := List.any_eq_true.mp h
      rw [hall k hk] at hc
      simp at hc
    · rfl
  · intro d hd
    unfold handleSave at hd
    split at hd
    · rename_i h
      obtain ⟨k, hk, hc⟩ := List.any_eq_true.mp h
      exact ⟨(Option.some.inj hd).symm, k, hk, hc⟩
    · exact absurd hd (by simp)

/-- C3 witness: an untouched one-field draft commits without a callback,
and an actually changed draft commits with one. -/
theorem c3_handleSave_noop_witness :
    handleSave (fun _ => none) [("name", Value.vStr "A")]
      [("name", Value.vStr "A")] = none ∧
    handleSave (fun _ => none) [("name", Value.vStr "A")]
      [("name", Value.vStr "B")] = some [("name", Value.vStr "B")] := by
  refine ⟨(c3_handleSave_noop (fun _ => none) [("name", Value.vStr "A")]
    [("name", Value.vStr "A")]).1 (by decide), by decide⟩

/-- Reduction of the multi-select filter branch: with filtering enabled, a
configured multi-select column and a non-empty array filter value, the
predicate is the any-of intersection test. -/
theorem columnFilterFn_multiSelect_eq (shape : Shape) (id : String)
    (config : FieldConfig) (row : Row) (vs : List String)
    (hcfg : shapeGet shape id = some config)
    (htype : config.type = FieldType.multiSelect)
    (hflt : ¬(config.filterable = some false))
    (hvs : ¬(vs = [])) :
    columnFilterFn true shape row id (Value.vArr vs) =
      vs.any (fun filterVal => (cellArrayOf (rowGet row id)).contains filterVal) := by
  unfold columnFilterFn
  rw [hcfg]
  dsimp only
  have h1 : (config.filterable == some false) = false := by
    cases hc : config.filterable with
    | none => rfl
    | some bb => cases bb <;> simp_all
  have h2 : jsFalsy (Value.vArr vs) = false := rfl
  have h3 : (Value.vArr vs == Value.vStr "all") = false := by
    apply beq_eq_false_iff_ne.mpr
    intro h
    exact Value.noConfusion h
  have h4 : 0 < vs.length := List.length_pos.mpr hvs
  rw [htype]
  simp only [Bool.not_true, Bool.false_eq_true, if_false, h1, h2, h3,
    Bool.or_self, h4, if_true]
  rfl

/-- C8: with filtering enabled, the multi-select column filter accepts a
record exactly when the record's value-set intersects the non-empty filter
value-set (any-of semantics); a record whose cell value is not an array has
the empty value-set and is rejected by every non-empty multi-select
filter. -/
theorem c8_multiSelect_filter (shape : Shape) (id : String)
    (config : FieldConfig) (row : Row) (vs : List String)
    (hcfg : shapeGet shape id = some config)
    (htype : config.type = FieldType.multiSelect)
    (hflt : ¬(config.filterable = some false))
    (hvs : ¬(vs = [])) :
    (columnFilterFn true shape row id (Value.vArr vs) = true ↔
      ∃ x ∈ vs, x ∈ cellArrayOf (rowGet row id)) ∧
    ((∀ xs, ¬(rowGet row id = Value.vArr xs)) →
      columnFilterFn true shape row id (Value.vArr vs) = false) := by
  have hstep := columnFilterFn_multiSelect_eq shape id config row vs hcfg htype hflt hvs
  constructor
  · rw [hstep]
    simp [List.any_eq_true]
  · intro hnotarr
    have hempty : cellArrayOf (rowGet row id) = [] := by
      cases hcell : rowGet row id <;> simp [cellArrayOf]
      exact absurd hcell (hnotarr _)
    rw [hstep, hempty]
    simp

/-- C8 witness: the spec's scenario — filter value `["React"]` matches the
skill set `["React", "Vue"]` and rejects `["Angular"]`. -/
theorem c8_multiSelect_filter_witness :
    columnFilterFn true [("skills", { type := FieldType.multiSelect, label := "Skills" })]
      [("skills", Value.vArr ["React", "Vue"])] "skills" (Value.vArr ["React"]) = true ∧
    columnFilterFn true [("skills", { type := FieldType.multiSelect, label := "Skills" })]
      [("skills", Value.vArr ["Angular"])] "skills" (Value.vArr ["React"]) = false := by
  constructor
  · exact (c8_multiSelect_filter
      [("skills", { type := FieldType.multiSelect, label := "Skills" })] "skills"
      { type := FieldType.multiSelect, label := "Skills" }
      [("skills", Value.vArr ["React", "Vue"])] ["React"] rfl rfl (by decide)
      (by decide)).1.mpr ⟨"React", by decide, by decide⟩
  · have h := (c8_multiSelect_filter
      [("skills", { type := FieldType.multiSelect, label := "Skills" })] "skills"
      { type := FieldType.multiSelect, label := "Skills" }
      [("skills", Value.vArr ["Angular"])] ["React"] rfl rfl (by decide)
      (by decide)).1
    rcases hb : columnFilterFn true
      [("skills", { type := FieldType.multiSelect, label := "Skills" })]
      [("skills", Value.vArr ["Angular"])] "skills" (Value.vArr ["React"]) with _ | _
    · rfl
    · obtain ⟨x, hx, hmem⟩ := h.mp hb
      have hx2 : x = "React" := by simpa using hx
      subst hx2
      revert hmem
      decide

/-- Inserting a row is a permutation of consing it. -/
theorem insertRow_perm (cmp : Row → Row → Ordering) (a : Row) (l : List Row) :
    (insertRow cmp a l).Perm (a :: l) := by
  induction l with
  | nil => exact List.Perm.refl _
  | cons b bs ih =>
    unfold insertRow
    split
    · exact ((ih.cons b).trans (List.Perm.swap a b bs))
    · exact List.Perm.refl _

/-- The stable sort is a permutation of its input. -/
theorem sortRows_perm (cmp : Row → Row → Ordering) (l : List Row) :
    (sortRows cmp l).Perm l := by
  induction l with
  | nil => exact List.Perm.refl _
  | cons x xs ih =>
    exact (insertRow_perm cmp x (sortRows cmp xs)).trans (ih.cons x)

/-- The rendered row model is a subset of the sorted rows (with pagination
it is a slice, without it is the whole list). -/
theorem rowModelRows_subset (pag : Bool) (pageIndex pageSize : Nat)
    (sorted : List Row) : rowModelRows pag pageIndex pageSize sorted ⊆ sorted := by
  unfold rowModelRows paginateRows
  split
  · exact fun r hr => List.drop_subset _ sorted (List.take_subset _ _ hr)
  · exact fun r hr => hr

/-- C1 (amended): the pruning step is exact with respect to the identity
set it is given — a key survives exactly when it was present and is in the
given visible-id set, so nothing is ever added; the id set actually fed to
pruning is that of the rendered row model, so every surviving key is an
identity of the filtered view (the row model is the current page when
pagination is enabled, the full filtered/sorted set otherwise). -/
theorem c1_pruneSelection_rowModel :
    (∀ (prev : Selection) (visible : List String) (k : String),
      k ∈ selectionKeys (pruneSelection prev visible) ↔
        (k ∈ selectionKeys prev ∧ k ∈ visible)) ∧
    (∀ (prev : Selection) (tf ts : Bool) (shape : Shape)
      (searchCols : List String) (filters : List (String × Value))
      (globalQuery : String) (sorting : List (String × Bool)) (pag : Bool)
      (pageIndex pageSize : Nat) (rid : String) (data : List Row) (k : String),
      k ∈ selectionKeys (pruneSelection prev
        (rowIds rid (rowModelRows pag pageIndex pageSize
          (sortRows (cmpBySorting sorting)
            (filteredRows tf ts shape searchCols filters globalQuery data))))) →
      k ∈ rowIds rid (filteredRows tf ts shape searchCols filters globalQuery data)) := by
  have hkey : ∀ (prev : Selection) (visible : List String) (k : String),
      k ∈ selectionKeys (pruneSelection prev visible) ↔
        (k ∈ selectionKeys prev ∧ k ∈ visible) := by
    intro prev visible k
    unfold pruneSelection
    by_cases hchanged : prev.any (fun kv => !(visible.contains kv.1)) = true
    · rw [if_pos hchanged]
      unfold selectionKeys
      simp only [List.map_map, List.mem_map, List.mem_filter, Function.comp]
      constructor
      · rintro ⟨kv, ⟨hkv, hcont⟩, hfst⟩
        refine ⟨⟨kv, hkv, hfst⟩, ?_⟩
        rw [← hfst]
        simpa using hcont
      · rintro ⟨⟨kv, hkv, hfst⟩, hvis⟩
        refine ⟨kv, ⟨hkv, ?_⟩, hfst⟩
        rw [hfst]
        simpa using hvis
    · rw [if_neg hchanged]
      have hall : ∀ kv ∈ prev, kv.1 ∈ visible := by
        intro kv hkv
        by_contra hc
        exact hchanged (List.any_eq_true.mpr ⟨kv, hkv, by simpa using hc⟩)
      constructor
      · intro hk
        refine ⟨hk, ?_⟩
        obtain ⟨kv, hkv, hfst⟩ := List.mem_map.mp hk
        rw [← hfst]
        exact hall kv hkv
      · exact And.left
  refine ⟨hkey, ?_⟩
  intro prev tf ts shape searchCols filters globalQuery sorting pag pageIndex
    pageSize rid data k hk
  have hvis := ((hkey prev _ k).mp hk).2
  unfold rowIds at hvis ⊢
  obtain ⟨r, hr, hid⟩ := List.mem_map.mp hvis
  have hr2 : r ∈ sortRows (cmpBySorting sorting)
      (filteredRows tf ts shape searchCols filters globalQuery data) :=
    rowModelRows_subset pag pageIndex pageSize _ hr
  have hr3 : r ∈ filteredRows tf ts shape searchCols filters globalQuery data :=
    (sortRows_perm (cmpBySorting sorting) _).mem_iff.mp hr2
  exact List.mem_map.mpr ⟨r, hr3, hid⟩

/-- C1 counterexample: with pagination enabled the pruning step does not
preserve every selected identity that is still in the filtered view.  Three
records (ids 1, 2, 3; names alpha, beta, betb), page size 1.  Under the old
state (empty query, page index 1) record 2 was the rendered row and was
selected.  After the search query becomes "bet", record 2 is still in the
filtered view (which holds records 2 and 3), but the row model at page
index 1 is record 3, and pruning removes identity 2 from the selection. -/
theorem c1_counterexample :
    ("2" ∈ selectionKeys [("2", true)]) ∧
    ("2" ∈ rowIds "id"
      (rowModelRows true 1 1 (sortRows (cmpBySorting [])
        (filteredRows true true
          [("name", { type := FieldType.text, label := "Name" })] ["name"] [] ""
          [[("id", Value.vStr "1"), ("name", Value.vStr "alpha")],
           [("id", Value.vStr "2"), ("name", Value.vStr "beta")],
           [("id", Value.vStr "3"), ("name", Value.vStr "betb")]])))) ∧
    ("2" ∈ rowIds "id"
      (filteredRows true true
        [("name", { type := FieldType.text, label := "Name" })] ["name"] [] "bet"
        [[("id", Value.vStr "1"), ("name", Value.vStr "alpha")],
         [("id", Value.vStr "2"), ("name", Value.vStr "beta")],
         [("id", Value.vStr "3"), ("name", Value.vStr "betb")]])) ∧
    pruneSelection [("2", true)]
      (rowIds "id"
        (rowModelRows true 1 1 (sortRows (cmpBySorting [])
          (filteredRows true true
            [("name", { type := FieldType.text, label := "Name" })] ["name"] [] "bet"
            [[("id", Value.vStr "1"), ("name", Value.vStr "alpha")],
             [("id", Value.vStr "2"), ("name", Value.vStr "beta")],
             [("id", Value.vStr "3"), ("name", Value.vStr "betb")]])))) = [] := by
  refine ⟨by decide, by decide, by decide, by decide⟩

/-- C1 witness: the amended pruning law applied at a concrete state —
pruning a two-key selection against a one-id visible set keeps exactly the
visible key, and a key surviving the paginated row model is an identity of
the filtered view. -/
theorem c1_pruneSelection_rowModel_witness :
    ("a" ∈ selectionKeys (pruneSelection [("a", true), ("b", true)] ["a"]) ↔
      ("a" ∈ selectionKeys [("a", true), ("b", true)] ∧ "a" ∈ ["a"])) ∧
    ("1" ∈ rowIds "id"
      (filteredRows true true
        [("name", { type := FieldType.text, label := "Name" })] ["name"] [] ""
        [[("id", Value.vStr "1"), ("name", Value.vStr "alpha")]])) := by
  constructor
  · exact c1_pruneSelection_rowModel.1 [("a", true), ("b", true)] ["a"] "a"
  · exact c1_pruneSelection_rowModel.2 [("1", true)] true true
      [("name", { type := FieldType.text, label := "Name" })] ["name"] [] "" []
      false 0 1 "id"
      [[("id", Value.vStr "1"), ("name", Value.vStr "alpha")]] "1" (by decide)

/-- C2 counterexample: `handleSelectionChange` resolves the selected
records against the raw `data` array, not against the live filtered/sorted
row set.  With records A and B both selected and a descending sort on the
name column, the sorted view is [B, A] but the observer receives [A, B] —
the raw-data order, not the one unambiguous filtered/sorted source the
claim requires. -/
theorem c2_counterexample :
    selectionChangeRecords
      [[("id", Value.vStr "a"), ("name", Value.vStr "A")],
       [("id", Value.vStr "b"), ("name", Value.vStr "B")]]
      "id" [("a", true), ("b", true)] =
      [[("id", Value.vStr "a"), ("name", Value.vStr "A")],
       [("id", Value.vStr "b"), ("name", Value.vStr "B")]] ∧
    specSelectionRecords
      (sortRows (cmpBySorting [("name", true)])
        (filteredRows true true
          [("name", { type := FieldType.text, label := "Name" })] ["name"] [] ""
          [[("id", Value.vStr "a"), ("name", Value.vStr "A")],
           [("id", Value.vStr "b"), ("name", Value.vStr "B")]]))
      "id" [("a", true), ("b", true)] =
      [[("id", Value.vStr "b"), ("name", Value.vStr "B")],
       [("id", Value.vStr "a"), ("name", Value.vStr "A")]] ∧
    ¬(selectionChangeRecords
        [[("id", Value.vStr "a"), ("name", Value.vStr "A")],
         [("id", Value.vStr "b"), ("name", Value.vStr "B")]]
        "id" [("a", true), ("b", true)] =
      specSelectionRecords
        (sortRows (cmpBySorting [("name", true)])
          (filteredRows true true
            [("name", { type := FieldType.text, label := "Name" })] ["name"] [] ""
            [[("id", Value.vStr "a"), ("name", Value.vStr "A")],
             [("id", Value.vStr "b"), ("name", Value.vStr "B")]]))
        "id" [("a", true), ("b", true)]) := by
  refine ⟨by decide, by decide, by decide⟩

/-- C2 (amended): the records handed to the selection observer are
resolved against the raw data array in raw-data order; provided the row
identities are duplicate-free and the selection's keys all lie in the
filtered view (which the pruning step maintains), that list is a
permutation of — the same record multiset as — the lookup against the live
filtered/sorted row set, though not necessarily in view order. -/
theorem c2_selectionRecords_perm (tf ts : Bool) (shape : Shape)
    (searchCols : List String) (filters : List (String × Value))
    (globalQuery : String) (sorting : List (String × Bool)) (data : List Row)
    (rid : String) (sel : Selection)
    (hnd : (rowIds rid data).Nodup)
    (hsub : ∀ k ∈ selectionKeys sel,
      k ∈ rowIds rid (filteredRows tf ts shape searchCols filters globalQuery data)) :
    (selectionChangeRecords data rid sel).Perm
      (specSelectionRecords
        (sortRows (cmpBySorting sorting)
          (filteredRows tf ts shape searchCols filters globalQuery data))
        rid sel) := by
  unfold selectionChangeRecords specSelectionRecords
  have hperm : (sortRows (cmpBySorting sorting)
      (filteredRows tf ts shape searchCols filters globalQuery data)).Perm
      (filteredRows tf ts shape searchCols filters globalQuery data) :=
    sortRows_perm _ _
  have h1 := (hperm.filter
    (fun r => (selectionKeys sel).contains (idStr rid r))).symm
  have h2 : data.filter (fun r => (selectionKeys sel).contains (idStr rid r)) =
      (filteredRows tf ts shape searchCols filters globalQuery data).filter
        (fun r => (selectionKeys sel).contains (idStr rid r)) := by
    unfold filteredRows
    rw [List.filter_filter]
    apply List.filter_congr
    intro r hr
    by_cases hpr : (selectionKeys sel).contains (idStr rid r) = true
    · have hid : idStr rid r ∈ selectionKeys sel := by simpa using hpr
      have hmm : idStr rid r ∈
          (filteredRows tf ts shape searchCols filters globalQuery data).map
            (idStr rid) := by
        simpa [rowIds] using hsub _ hid
      obtain ⟨r2, hr2, hid2⟩ := List.mem_map.mp hmm
      have hr2f : r2 ∈ List.filter
          (filterPasses tf ts shape searchCols filters globalQuery) data := by
        simpa [filteredRows] using hr2
      have hqr2 : filterPasses tf ts shape searchCols filters globalQuery r2 =
          true := List.of_mem_filter hr2f
      have hnd2 : (data.map (idStr rid)).Nodup := by
        simpa [rowIds] using hnd
      have hreq : r2 = r :=
        List.inj_on_of_nodup_map hnd2 (List.mem_of_mem_filter hr2f) hr hid2
      have hqr : filterPasses tf ts shape searchCols filters globalQuery r =
          true := hreq ▸ hqr2
      simp [hpr, hqr]
    · have hf : (selectionKeys sel).contains (idStr rid r) = false :=
        Bool.eq_false_iff.mpr hpr
      simp [hf]
      intro hmem
      have hc : (selectionKeys sel).contains (idStr rid r) = true := by
        simpa using hmem
      rw [hc] at hf
      simp at hf
  rw [h2]
  exact h1

/-- C2 witness: the amended law at a concrete state — both records
selected, descending name sort: the raw-data resolution [A, B] is a
permutation of the view resolution [B, A]. -/
theorem c2_selectionRecords_perm_witness :
    (selectionChangeRecords
      [[("id", Value.vStr "a"), ("name", Value.vStr "A")],
       [("id", Value.vStr "b"), ("name", Value.vStr "B")]]
      "id" [("a", true), ("b", true)]).Perm
      (specSelectionRecords
        (sortRows (cmpBySorting [("name", true)])
          (filteredRows true true
            [("name", { type := FieldType.text, label := "Name" })] ["name"] [] ""
            [[("id", Value.vStr "a"), ("name", Value.vStr "A")],
             [("id", Value.vStr "b"), ("name", Value.vStr "B")]]))
        "id" [("a", true), ("b", true)]) :=
  c2_selectionRecords_perm true true
    [("name", { type := FieldType.text, label := "Name" })] ["name"] [] ""
    [("name", true)]
    [[("id", Value.vStr "a"), ("name", Value.vStr "A")],
     [("id", Value.vStr "b"), ("name", Value.vStr "B")]]
    "id" [("a", true), ("b", true)] (by decide) (by decide)

/-- C7: the export trigger wires the filtered/sorted rows and the truthy
selection into `exportToExcel` (first conjunct, the definitional wiring);
with no truthy selection entry the chosen row source is the full
filtered/sorted row set; with a truthy selected identity present in the
data the chosen row source is exactly the selected rows (and is non-empty);
and an empty row source, or a non-empty row source with an empty
export-column set, yields the reported empty-export alerts — never a saved
workbook. -/
theorem c7_export_row_source :
    (∀ (tf ts : Bool) (shape : Shape) (columnOrder : List String)
      (columnVisibility : Visibility) (tableName : String) (data : List Row)
      (rid : String) (sel : Selection) (searchCols : List String)
      (filters : List (String × Value)) (globalQuery : String)
      (sorting : List (String × Bool)) (tz : Option String)
      (w : Except String Unit),
      handleExport tf ts shape columnOrder columnVisibility tableName data rid
        sel searchCols filters globalQuery sorting tz w =
      exportToExcel shape (getVisibleColumns shape columnOrder columnVisibility)
        columnOrder tableName
        (sortRows (cmpBySorting sorting)
          (filteredRows tf ts shape searchCols filters globalQuery data))
        (selectedRowsArg data rid sel) tz w) ∧
    (∀ (data : List Row) (rid : String) (sel : Selection) (processed : List Row),
      sel.any (fun kv => kv.2) = false →
      dataToExport processed (selectedRowsArg data rid sel) = processed) ∧
    (∀ (data : List Row) (rid : String) (sel : Selection) (k : String),
      List.lookup k sel = some true → k ∈ rowIds rid data →
      ¬(data.filter (fun r => selValueTruthy sel (idStr rid r)) = []) ∧
      ∀ processed : List Row,
        dataToExport processed (selectedRowsArg data rid sel) =
          data.filter (fun r => selValueTruthy sel (idStr rid r))) ∧
    (∀ (shape : Shape) (vcols ord : List String) (nm : String) (d : List Row)
      (selRows : Option (List Row)) (tz : Option String) (w : Except String Unit),
      (dataToExport d selRows = [] →
        exportToExcel shape vcols ord nm d selRows tz w =
          ExportOutcome.alertNoData) ∧
      (¬(dataToExport d selRows = []) → exportColumnsOf shape vcols ord = [] →
        exportToExcel shape vcols ord nm d selRows tz w =
          ExportOutcome.alertNoColumns)) := by
  refine ⟨fun _ _ _ _ _ _ _ _ _ _ _ _ _ _ _ => rfl, ?_, ?_, ?_⟩
  · intro data rid sel processed hno
    unfold selectedRowsArg
    rw [hno]
    rfl
  · intro data rid sel k hlk hmem
    have hentry : (k, true) ∈ sel := by
      obtain ⟨l1, l2, hsplit, _⟩ := List.lookup_eq_some_iff.mp hlk
      rw [hsplit]
      exact List.mem_append.mpr (Or.inr (List.mem_cons_self _ _))
    have hany : sel.any (fun kv => kv.2) = true :=
      List.any_eq_true.mpr ⟨(k, true), hentry, rfl⟩
    obtain ⟨r, hr, hid⟩ := List.mem_map.mp (by simpa [rowIds] using hmem)
    have htruthy : selValueTruthy sel (idStr rid r) = true := by
      unfold selValueTruthy
      rw [hid, hlk]
      rfl
    have hrmem : r ∈ data.filter (fun r => selValueTruthy sel (idStr rid r)) :=
      List.mem_filter.mpr ⟨hr, htruthy⟩
    have hne : ¬(data.filter (fun r => selValueTruthy sel (idStr rid r)) = []) :=
      fun he => by
        rw [he] at hrmem
        exact (List.not_mem_nil r) hrmem
    refine ⟨hne, fun processed => ?_⟩
    unfold selectedRowsArg
    rw [hany]
    unfold dataToExport
    simp only [if_true]
    rw [if_pos (List.length_pos.mpr hne)]
  · intro shape vcols ord nm d selRows tz w
    constructor
    · intro hempty
      unfold exportToExcel exportAttempt
      rw [hempty]
      rfl
    · intro hne hcols
      unfold exportToExcel exportAttempt
      have hlen : ((dataToExport d selRows).length == 0) = false := by
        simpa using fun h => hne (List.length_eq_zero.mp h)
      simp [hlen]
      rw [if_pos hcols]

/-- C7 witness: concrete empty-source and empty-column exports report the
two alerts, and a concrete truthy selection is chosen as the row source. -/
theorem c7_export_row_source_witness :
    exportToExcel [("name", { type := FieldType.text, label := "Name" })]
      ["name"] ["name"] "t" [] none none (Except.ok ()) =
      ExportOutcome.alertNoData ∧
    exportToExcel [("name", { type := FieldType.text, label := "Name" })]
      [] ["name"] "t" [[("name", Value.vStr "A")]] none none (Except.ok ()) =
      ExportOutcome.alertNoColumns ∧
    dataToExport [] (selectedRowsArg
      [[("id", Value.vStr "a"), ("name", Value.vStr "A")],
       [("id", Value.vStr "b"), ("name", Value.vStr "B")]] "id" [("a", true)]) =
      [[("id", Value.vStr "a"), ("name", Value.vStr "A")]] := by
  refine ⟨?_, ?_, ?_⟩
  · exact (c7_export_row_source.2.2.2
      [("name", { type := FieldType.text, label := "Name" })]
      ["name"] ["name"] "t" [] none none (Except.ok ())).1 (by decide)
  · exact (c7_export_row_source.2.2.2
      [("name", { type := FieldType.text, label := "Name" })]
      [] ["name"] "t" [[("name", Value.vStr "A")]] none none (Except.ok ())).2
      (by decide) (by decide)
  · have h := ((c7_export_row_source.2.2.1
      [[("id", Value.vStr "a"), ("name", Value.vStr "A")],
       [("id", Value.vStr "b"), ("name", Value.vStr "B")]] "id" [("a", true)]
      "a" (by decide) (by decide)).2 [])
    rw [h]
    decide

/-- C10: every error raised inside the body of `exportToExcel` (a throwing
custom export hook, a failing spreadsheet writer) is caught by the
surrounding try/catch and surfaced as the reported export failure; the
public boundary never propagates an exception. -/
theorem c10_exportToExcel_total (shape : Shape)
    (visibleColumns columnOrder : List String) (tableName : String)
    (data : List Row) (selectedRows : Option (List Row))
    (timezone : Option String) (writer : Except String Unit) (e : String)
    (h : exportAttempt shape visibleColumns columnOrder tableName data
      selectedRows timezone writer = Except.error e) :
    exportToExcel shape visibleColumns columnOrder tableName data selectedRows
      timezone writer = ExportOutcome.alertFailed := by
  unfold exportToExcel
  rw [h]

/-- C10 witness: a concrete export whose external writer throws is reported
as the alert failure instead of propagating. -/
theorem c10_exportToExcel_total_witness :
    exportToExcel [("name", { type := FieldType.text, label := "Name" })]
      ["name"] ["name"] "t" [[("name", Value.vStr "A")]] none none
      (Except.error "boom") = ExportOutcome.alertFailed :=
  c10_exportToExcel_total [("name", { type := FieldType.text, label := "Name" })]
    ["name"] ["name"] "t" [[("name", Value.vStr "A")]] none none
    (Except.error "boom") "boom" rfl

end DataTable
